import Mathlib

/-!
Verification development for the real-time chat client core of the
ElectroMart repository: the message-correlation engine
(`useMessageCorrelation`, two source variants) and the socket hook
(`useSocket`): send/offline-queue/pending-message lifecycle.

The embedding translates the TypeScript sources directly:
JavaScript `Map`s become insertion-ordered association lists with
`Map.set` / `Map.get` / `Map.delete` semantics, message keys
(`message_id || index`, with JS falsiness of the empty string and of
the number 0) become an explicit `Key` sum type, and the React hook
state becomes an explicit record threaded through the event handlers.
Timestamps are elided from `Message` records: no control flow in the
modelled code inspects them.
-/

namespace ElectroMart

/-- `MessageRole` from `types/index.ts`. -/
inductive Role where
  | user
  | assistant
deriving DecidableEq, Repr

/-- A JS map key of TypeScript type `string | number`, as used by the
correlation map (`message.message_id || index`). -/
inductive Key where
  | str (s : String)
  | idx (n : Nat)
deriving DecidableEq, Repr

/-- The fields of `MessageMetadata` that the modelled handlers actually
write (`{ type: ..., ...data }` spreads). -/
structure MessageMetadata where
  mtype : Option String := none
  reason : Option String := none
  cancelled_count : Option Nat := none
  message : Option String := none
deriving DecidableEq, Repr

/-- `Message` from `types/index.ts` (timestamp elided; see header). -/
structure Message where
  role : Role
  content : String
  agent : Option String := none
  metadata : Option MessageMetadata := none
  message_id : Option String := none
deriving DecidableEq, Repr

/-- `PendingMessage` from `types/index.ts`. -/
structure PendingMessage where
  message : String
  status : String
  sent_at : Nat
  is_typing : Bool
  queue_position : Option Nat := none
deriving DecidableEq, Repr

/-- `OfflineQueuedMessage` from `types/index.ts`. -/
structure OfflineQueuedMessage where
  message : String
  mtype : String
  queued_at : Nat
  message_id : String
deriving DecidableEq, Repr

/-- `CorrelationData` from `types/index.ts`. -/
structure CorrelationData where
  correlationNumber : Nat
  color : String
  isPending : Bool
  isUserMessage : Bool
  replyToMessageId : Option Key := none
  pendingData : Option PendingMessage := none
deriving DecidableEq, Repr

section JsMap

variable {κ α : Type} [DecidableEq κ]

/-- JS `Map.set`: update in place (keeping insertion order) when the key
is present, append otherwise. -/
def jsSet : List (κ × α) → κ → α → List (κ × α)
  | [], k, v => [(k, v)]
  | e :: rest, k, v => if e.1 = k then (k, v) :: rest else e :: jsSet rest k v

/-- JS `Map.get`. -/
def jsGet : List (κ × α) → κ → Option α
  | [], _ => none
  | e :: rest, k => if e.1 = k then some e.2 else jsGet rest k

/-- JS `Map.delete` (keys are unique in a JS map, so removing the first
match is the exact semantics). -/
def jsDelete (l : List (κ × α)) (k : κ) : List (κ × α) :=
  l.eraseP (fun e => decide (e.1 = k))

/-- The `const p = map.get(k); if (p) mutate(p);` idiom: update the
entry at `k` in place when present. -/
def jsModify (l : List (κ × α)) (k : κ) (f : α → α) : List (κ × α) :=
  l.map (fun e => if e.1 = k then (e.1, f e.2) else e)

end JsMap

/-- The correlation map built by `useMessageCorrelation`. -/
abbrev CorrMap := List (Key × CorrelationData)

/-- `MESSAGE_CORRELATION.COLORS` from `config/constants`. -/
def MESSAGE_CORRELATION_COLORS : List String :=
  ["#1976d2", "#9c27b0", "#2e7d32", "#ed6c02", "#d32f2f", "#00796b"]

/-- `getCorrelationColor`: cycles through the palette. -/
def getCorrelationColor (number : Nat) : String :=
  (MESSAGE_CORRELATION_COLORS.get? ((number - 1) % MESSAGE_CORRELATION_COLORS.length)).getD ""

/-- The key under which a message at position `index` enters the
correlation map: `message.message_id || index`, including JS falsiness
of the empty string. -/
def msgKey (m : Message) (index : Nat) : Key :=
  match m.message_id with
  | some s => if s.isEmpty then Key.idx index else Key.str s
  | none => Key.idx index

/-- Whether a message carries a non-empty `message_id` (so that its map
key does not depend on its position). -/
def hasRealId (m : Message) : Bool :=
  match m.message_id with
  | some s => !s.isEmpty
  | none => false

/-- JS truthiness of the `lastUserMessageId` variable of correlation
variant 1 (`string | number | null`): `null`, `''` and `0` are falsy. -/
def jsTruthyKey : Option Key → Bool
  | none => false
  | some (Key.str s) => !s.isEmpty
  | some (Key.idx n) => n != 0

/-- First pass of `useMessageCorrelation` (textually identical in both
source variants): assign correlation numbers 1, 2, ... to `user`-role
messages in log order.  Returns the map and the final
`userMessageCounter`. -/
def firstPass : List Message → Nat → CorrMap → Nat → CorrMap × Nat
  | [], _, correlationMap, userMessageCounter => (correlationMap, userMessageCounter)
  | message :: rest, index, correlationMap, userMessageCounter =>
    if message.role = Role.user then
      let n := userMessageCounter + 1
      firstPass rest (index + 1)
        (jsSet correlationMap (msgKey message index)
          { correlationNumber := n, color := getCorrelationColor n,
            isPending := false, isUserMessage := true }) n
    else
      firstPass rest (index + 1) correlationMap userMessageCounter

/-- Second pass of source variant 1: link each assistant message to the
most recent preceding user message (tracked in `lastUserMessageId` /
`lastUserCorrelationNumber`), with a JS-truthiness guard and no
exclusion of system-tagged messages. -/
def secondPassV1 : List Message → Nat → CorrMap → Option Key → Nat → CorrMap
  | [], _, correlationMap, _, _ => correlationMap
  | message :: rest, index, correlationMap, lastUserMessageId, lastUserCorrelationNumber =>
    if message.role = Role.user then
      let k := msgKey message index
      let n := match jsGet correlationMap k with
        | some d => d.correlationNumber
        | none => lastUserCorrelationNumber
      secondPassV1 rest (index + 1) correlationMap (some k) n
    else if message.role = Role.assistant ∧ jsTruthyKey lastUserMessageId = true then
      secondPassV1 rest (index + 1)
        (jsSet correlationMap (msgKey message index)
          { correlationNumber := lastUserCorrelationNumber,
            color := getCorrelationColor lastUserCorrelationNumber,
            isPending := false, isUserMessage := false,
            replyToMessageId := lastUserMessageId })
        lastUserMessageId lastUserCorrelationNumber
    else
      secondPassV1 rest (index + 1) correlationMap lastUserMessageId lastUserCorrelationNumber

/-- Second pass of source variant 2: FIFO matching.  Each user message
pushes `{id, correlationNumber}` onto `unansweredQuestions`; each
assistant message whose `agent` is not `'system'` shifts the oldest
entry (if any) and binds to it.  Returns the map and the final queue. -/
def secondPassV2 : List Message → Nat → CorrMap → List (Key × Nat) → CorrMap × List (Key × Nat)
  | [], _, correlationMap, unansweredQuestions => (correlationMap, unansweredQuestions)
  | message :: rest, index, correlationMap, unansweredQuestions =>
    if message.role = Role.user then
      let k := msgKey message index
      match jsGet correlationMap k with
      | some d =>
        secondPassV2 rest (index + 1) correlationMap
          (unansweredQuestions ++ [(k, d.correlationNumber)])
      | none => secondPassV2 rest (index + 1) correlationMap unansweredQuestions
    else if message.role = Role.assistant ∧ message.agent ≠ some "system" then
      match unansweredQuestions with
      | [] => secondPassV2 rest (index + 1) correlationMap []
      | matchedQuestion :: qs =>
        secondPassV2 rest (index + 1)
          (jsSet correlationMap (msgKey message index)
            { correlationNumber := matchedQuestion.2,
              color := getCorrelationColor matchedQuestion.2,
              isPending := false, isUserMessage := false,
              replyToMessageId := some matchedQuestion.1 })
          qs
    else
      secondPassV2 rest (index + 1) correlationMap unansweredQuestions

/-- Third pass (textually identical in both source variants): pending
message ids not already in the map get trailing correlation numbers. -/
def thirdPass : List (String × PendingMessage) → CorrMap → Nat → CorrMap
  | [], correlationMap, _ => correlationMap
  | (messageId, pendingData) :: rest, correlationMap, pendingCounter =>
    if (jsGet correlationMap (Key.str messageId)).isSome then
      thirdPass rest correlationMap pendingCounter
    else
      let n := pendingCounter + 1
      thirdPass rest
        (jsSet correlationMap (Key.str messageId)
          { correlationNumber := n, color := getCorrelationColor n,
            isPending := true, isUserMessage := true, pendingData := some pendingData })
        n

/-- Source variant 1 of `useMessageCorrelation` (the pure memo body). -/
def useMessageCorrelationV1 (messages : List Message)
    (pendingMessages : List (String × PendingMessage)) : CorrMap :=
  let fp := firstPass messages 0 [] 0
  thirdPass pendingMessages (secondPassV1 messages 0 fp.1 none 0) fp.2

/-- Source variant 2 of `useMessageCorrelation` (the pure memo body). -/
def useMessageCorrelationV2 (messages : List Message)
    (pendingMessages : List (String × PendingMessage)) : CorrMap :=
  let fp := firstPass messages 0 [] 0
  thirdPass pendingMessages (secondPassV2 messages 0 fp.1 []).1 fp.2

/-! ## The `useSocket` hook as a state machine

The hook's React state plus the refs that matter behaviourally, and a
trace of everything emitted on the transport (`socket.emit`). -/

/-- `TIMING.DUPLICATE_SEND_THROTTLE_MS` from `config/constants`. -/
def DUPLICATE_SEND_THROTTLE_MS : Nat := 2000

/-- `ERROR_MESSAGES.SEND_TOO_FAST`. -/
def ERROR_SEND_TOO_FAST : String := "Please wait before sending the same message again"

/-- `ERROR_MESSAGES.OFFLINE`. -/
def ERROR_OFFLINE : String := "You are offline. Messages will be sent when connection is restored."

/-- An event emitted on the transport by the client. -/
inductive Emit where
  | message (content : String) (mtype : String)
  | cancel_message (message_id : String)
  | cancel_all_messages
deriving DecidableEq, Repr

/-- The state of `useSocket`: its `useState` cells (those the modelled
handlers touch) plus the `lastSentMessage` / `lastSentTime` refs and
the transport trace.  The `socket` object itself is conflated with
`isConnected` (the code only ever checks `!socket || !isConnected`). -/
structure SocketState where
  isConnected : Bool
  messages : List Message
  isTyping : Bool
  error : Option String
  currentAgent : Option String
  pending : List (String × PendingMessage)
  offlineQueue : List OfflineQueuedMessage
  isSending : Bool
  lastSentMessage : Option String
  lastSentTime : Nat
  emitted : List Emit
deriving DecidableEq, Repr

/-- The initial hook state. -/
def initState : SocketState :=
  { isConnected := false, messages := [], isTyping := false, error := none,
    currentAgent := none, pending := [], offlineQueue := [], isSending := false,
    lastSentMessage := none, lastSentTime := 0, emitted := [] }

/-- The user message `sendMessage` appends to the log. -/
def userMessageOf (message : String) (tempMessageId : String) : Message :=
  { role := Role.user, content := message, message_id := some tempMessageId }

/-- The system notice appended when a send is queued offline. -/
def offlineNotice : Message :=
  { role := Role.assistant, content := ERROR_OFFLINE, agent := some "system",
    metadata := some { mtype := some "offline_queued" } }

/-- The system notice appended when the offline queue is flushed on
reconnect. -/
def reconnectedNotice (count : Nat) : Message :=
  { role := Role.assistant,
    content := "Reconnected! Sending " ++ toString count ++ " message(s) from offline queue...",
    agent := some "system", metadata := some { mtype := some "reconnection" } }

/-- JS string whitespace for `String.prototype.trim` (the characters
that can occur in this client's inputs). -/
def isSpaceChar (c : Char) : Bool := c = ' ' || c = '\t' || c = '\n' || c = '\r'

/-- ASCII lower-casing of one character (`String.prototype.toLowerCase`
on the ASCII range). -/
def toLowerChar (c : Char) : Char :=
  if 65 ≤ c.toNat ∧ c.toNat ≤ 90 then Char.ofNat (c.toNat + 32) else c

/-- JS `message.trim()`. -/
def jsTrim (s : String) : String :=
  ((s.data.dropWhile isSpaceChar).reverse.dropWhile isSpaceChar).reverse.asString

/-- JS `message.toLowerCase()`. -/
def jsToLower (s : String) : String := (s.data.map toLowerChar).asString

/-- `sendMessage` from `useSocket`; `now` is `Date.now()` and
`tempMessageId` the generated tracking id.  The `setTimeout` that later
clears `isSending` is a separate timer event, not part of this
handler. -/
def sendMessage (message : String) (now : Nat) (tempMessageId : String)
    (s : SocketState) : SocketState :=
  if (jsTrim message).isEmpty then s
  else
    let timeSinceLastSend := now - s.lastSentTime
    let normalizedMessage := jsToLower (jsTrim message)
    if s.lastSentMessage = some normalizedMessage ∧
        timeSinceLastSend < DUPLICATE_SEND_THROTTLE_MS then
      { s with error := some ERROR_SEND_TOO_FAST }
    else if s.isSending then s
    else
      let s1 := { s with lastSentMessage := some normalizedMessage, lastSentTime := now,
                         isSending := true,
                         messages := s.messages ++ [userMessageOf message tempMessageId],
                         error := none }
      if s.isConnected = false then
        { s1 with
            offlineQueue := s1.offlineQueue ++
              [{ message := message, mtype := "text", queued_at := now,
                 message_id := tempMessageId }],
            messages := s1.messages ++ [offlineNotice],
            isSending := false }
      else
        { s1 with
            pending := jsSet s1.pending tempMessageId
              { message := message, status := "sending", sent_at := now, is_typing := false },
            emitted := s1.emitted ++ [Emit.message message "text"],
            isTyping := true }

/-- The `connect` handler: mark connected, clear the error, and flush a
non-empty offline queue (one system notice, then emit every queued
entry in order, then clear the queue). -/
def onConnect (s : SocketState) : SocketState :=
  let s0 := { s with isConnected := true, error := none }
  if s.offlineQueue.isEmpty then s0
  else
    { s0 with
        messages := s0.messages ++ [reconnectedNotice s.offlineQueue.length],
        emitted := s0.emitted ++ s.offlineQueue.map (fun q => Emit.message q.message q.mtype),
        offlineQueue := [] }

/-- Payload of the `response` transport event. -/
structure SocketResponse where
  message : String
  agent : String
  metadata : Option MessageMetadata := none
  message_id : Option String := none
deriving DecidableEq, Repr

/-- Payload of the `error` transport event. -/
structure SocketError where
  message : String
  message_id : Option String := none
deriving DecidableEq, Repr

/-- The `response` handler: append the assistant message, resolve the
pending entry, and stop typing only when no pending entries remain. -/
def onResponse (data : SocketResponse) (s : SocketState) : SocketState :=
  let newMessage : Message :=
    { role := Role.assistant, content := data.message, agent := some data.agent,
      metadata := data.metadata, message_id := data.message_id }
  let pending1 := match data.message_id with
    | some id => jsDelete s.pending id
    | none => s.pending
  { s with messages := s.messages ++ [newMessage], currentAgent := some data.agent,
           pending := pending1,
           isTyping := if pending1.isEmpty then false else s.isTyping }

/-- The `typing` handler: update the per-entry flag when a `message_id`
is given, and show the global indicator when the flag is set or any
message is pending. -/
def onTyping (is_typing : Bool) (message_id : Option String) (s : SocketState) : SocketState :=
  let pending1 := match message_id with
    | some id => jsModify s.pending id (fun p => { p with is_typing := is_typing })
    | none => s.pending
  { s with pending := pending1, isTyping := is_typing || !s.pending.isEmpty }

/-- The `error` handler: surface the text, resolve the pending entry if
the error names one, and stop typing only when none remain. -/
def onError (data : SocketError) (s : SocketState) : SocketState :=
  let pending1 := match data.message_id with
    | some id => jsDelete s.pending id
    | none => s.pending
  { s with error := some data.message, pending := pending1,
           isTyping := if pending1.isEmpty then false else s.isTyping }

/-- The `message_queued` handler: mark the pending entry queued with its
queue position (no-op when the entry no longer exists). -/
def onMessageQueued (message_id : String) (queue_position : Nat)
    (s : SocketState) : SocketState :=
  { s with pending := (jsModify s.pending message_id
      (fun p => { p with status := "queued", queue_position := some queue_position })) }

/-- The `message_cancelled` handler: resolve the pending entry, remove
the message from the log, and stop typing when at most one entry was
pending (the ref the code reads holds the pre-event set). -/
def onMessageCancelled (message_id : String) (s : SocketState) : SocketState :=
  { s with pending := jsDelete s.pending message_id,
           messages := s.messages.filter (fun m => decide (m.message_id ≠ some message_id)),
           isTyping := if s.pending.length ≤ 1 then false else s.isTyping }

/-- JS `a || b` on an optional string (empty string is falsy). -/
def jsOrString (a : Option String) (b : String) : String :=
  match a with
  | some v => if v.isEmpty then b else v
  | none => b

/-- The system notice appended by the `all_messages_cancelled`
handler (`data.message || default`, metadata spreads the payload). -/
def cancelNotice (cancelled_count : Nat) (message : Option String) : Message :=
  { role := Role.assistant,
    content := jsOrString message
      ("Cancelled " ++ toString cancelled_count ++ " pending message(s)"),
    agent := some "system",
    metadata := some { mtype := some "cancellation",
                       cancelled_count := some cancelled_count, message := message } }

/-- The `all_messages_cancelled` handler: clear the pending set and the
typing indicator and append one system notice. -/
def onAllMessagesCancelled (cancelled_count : Nat) (message : Option String)
    (s : SocketState) : SocketState :=
  { s with pending := [], isTyping := false,
           messages := s.messages ++ [cancelNotice cancelled_count message] }

/-- `cancelMessage` from `useSocket`: silently a no-op when not
connected, otherwise emits `cancel_message`. -/
def cancelMessage (messageId : String) (s : SocketState) : SocketState :=
  if s.isConnected = false then s
  else { s with emitted := s.emitted ++ [Emit.cancel_message messageId] }

/-- `cancelAllMessages` from `useSocket`: silently a no-op when not
connected, otherwise emits `cancel_all_messages`. -/
def cancelAllMessages (s : SocketState) : SocketState :=
  if s.isConnected = false then s
  else { s with emitted := s.emitted ++ [Emit.cancel_all_messages] }

/-- The events of the pending-message lifecycle named by the spec: a
user send plus the inbound reply / error / typing / cancellation
handlers. -/
inductive Event where
  | send (message : String) (now : Nat) (tempMessageId : String)
  | response (data : SocketResponse)
  | socketError (data : SocketError)
  | typing (is_typing : Bool) (message_id : Option String)
  | messageCancelled (message_id : String)
  | allMessagesCancelled (cancelled_count : Nat) (message : Option String)
deriving DecidableEq, Repr

/-- Dispatch one event to its handler. -/
def stepEvent : Event → SocketState → SocketState
  | Event.send m now t, s => sendMessage m now t s
  | Event.response data, s => onResponse data s
  | Event.socketError data, s => onError data s
  | Event.typing b id, s => onTyping b id s
  | Event.messageCancelled id, s => onMessageCancelled id s
  | Event.allMessagesCancelled n m, s => onAllMessagesCancelled n m s

/-- States reachable from the initial hook state through the modelled
events. -/
inductive Reachable : SocketState → Prop where
  | init : Reachable initState
  | step (e : Event) {s : SocketState} (h : Reachable s) : Reachable (stepEvent e s)

/-- Whether an event is a typing signal with `is_typing = true`. -/
def isTypingTrue : Event → Bool
  | Event.typing true _ => true
  | _ => false

/-! ## Observables of a message log

Key sequences extracted from a log, used to state the correlation
properties.  `i0` is the position of the first listed message in the
full log (keys depend on absolute positions). -/

/-- The map keys of all messages, in log order. -/
def keysFrom : List Message → Nat → List Key
  | [], _ => []
  | m :: rest, i => msgKey m i :: keysFrom rest (i + 1)

/-- The map keys of the `user`-role messages, in log order. -/
def usersFrom : List Message → Nat → List Key
  | [], _ => []
  | m :: rest, i =>
    if m.role = Role.user then msgKey m i :: usersFrom rest (i + 1)
    else usersFrom rest (i + 1)

/-- The map keys of the non-system assistant messages (the "replies"
that consume FIFO slots), in log order. -/
def replyKeysFrom : List Message → Nat → List Key
  | [], _ => []
  | m :: rest, i =>
    if m.role = Role.assistant ∧ m.agent ≠ some "system" then
      msgKey m i :: replyKeysFrom rest (i + 1)
    else replyKeysFrom rest (i + 1)

/-- User keys paired with their correlation numbers `c+1, c+2, ...`. -/
def usersNumsFrom : List Message → Nat → Nat → List (Key × Nat)
  | [], _, _ => []
  | m :: rest, i, c =>
    if m.role = Role.user then (msgKey m i, c + 1) :: usersNumsFrom rest (i + 1) (c + 1)
    else usersNumsFrom rest (i + 1) c

/-- Keys of a full log (first message at position 0). -/
def keysOf (messages : List Message) : List Key := keysFrom messages 0

/-- User keys of a full log. -/
def usersOf (messages : List Message) : List Key := usersFrom messages 0

/-- Reply keys of a full log. -/
def replyKeysOf (messages : List Message) : List Key := replyKeysFrom messages 0

/-- Number of `user`-role messages. -/
def countUsers (messages : List Message) : Nat :=
  (messages.filter (fun m => decide (m.role = Role.user))).length

/-- Number of non-system assistant messages. -/
def countReplies (messages : List Message) : Nat :=
  (messages.filter (fun m => decide (m.role = Role.assistant ∧ m.agent ≠ some "system"))).length

/-- The correlation entry the numbering pass gives the `n`-th user
message. -/
def userCorrData (n : Nat) : CorrelationData :=
  { correlationNumber := n, color := getCorrelationColor n,
    isPending := false, isUserMessage := true }

/-- The correlation entry the FIFO matching pass gives a reply bound to
the user message with key `k` and number `n`. -/
def replyCorrData (n : Nat) (k : Key) : CorrelationData :=
  { correlationNumber := n, color := getCorrelationColor n,
    isPending := false, isUserMessage := false, replyToMessageId := some k }

/-- Logs that strictly alternate `user` / non-system assistant
messages (each reply immediately answers the preceding question),
possibly ending with a trailing unanswered user message. -/
inductive AltLog : List Message → Prop where
  | nil : AltLog []
  | user1 (u : Message) (hu : u.role = Role.user) : AltLog [u]
  | cons (u a : Message) (rest : List Message) (hu : u.role = Role.user)
      (ha : a.role = Role.assistant) (hns : a.agent ≠ some "system")
      (h : AltLog rest) : AltLog (u :: a :: rest)

/-! ## Concrete fixtures for witnesses and counterexamples -/

/-- A user message with id `u1`. -/
def wU1 : Message := { role := Role.user, content := "q1", message_id := some "u1" }

/-- A user message with id `u2`. -/
def wU2 : Message := { role := Role.user, content := "q2", message_id := some "u2" }

/-- A non-system assistant reply with id `a1`. -/
def wA1 : Message :=
  { role := Role.assistant, content := "r1", agent := some "sales", message_id := some "a1" }

/-- A system notice (id-less, as the handlers build them). -/
def wSys : Message := { role := Role.assistant, content := "notice", agent := some "system" }

/-- A state whose last send was the normalized content `hi` at time 0. -/
def wThrottleState : SocketState :=
  { initState with lastSentMessage := some "hi", lastSentTime := 0 }

/-- A state with a send still in flight after the same last send. -/
def wInflightState : SocketState :=
  { initState with isSending := true, lastSentMessage := some "hi", lastSentTime := 0 }

/-- A disconnected state with one queued offline message. -/
def wQueueState : SocketState :=
  { initState with offlineQueue :=
      [{ message := "hello", mtype := "text", queued_at := 50, message_id := "t1" }] }

/-- A state with exactly one pending entry (`t1`) being typed about. -/
def wPendState : SocketState :=
  { initState with
      pending := [("t1", { message := "hello", status := "sending", sent_at := 10,
                           is_typing := true })],
      isTyping := true }

/-- A reply addressed to the pending entry `t1`. -/
def wResp : SocketResponse := { message := "reply", agent := "sales", message_id := some "t1" }

/-- A state with a send in flight and nothing else. -/
def wSendingState : SocketState := { initState with isSending := true }

/-! ## Lemmas on the JS map operations -/

section JsMapLemmas

variable {κ α : Type} [DecidableEq κ]

theorem jsGet_jsSet_self (l : List (κ × α)) (k : κ) (v : α) :
    jsGet (jsSet l k v) k = some v := by
  induction l with
  | nil => simp [jsSet, jsGet]
  | cons e rest ih =>
    by_cases h : e.1 = k
    · simp [jsSet, h, jsGet]
    · simp [jsSet, h, jsGet, ih]

theorem jsGet_jsSet_ne (l : List (κ × α)) (k k' : κ) (v : α) (h : k' ≠ k) :
    jsGet (jsSet l k v) k' = jsGet l k' := by
  induction l with
  | nil => simp [jsSet, jsGet, h, Ne.symm h]
  | cons e rest ih =>
    by_cases he : e.1 = k
    · subst he
      simp [jsSet, jsGet, h, Ne.symm h]
    · by_cases he' : e.1 = k'
      · simp [jsSet, he, jsGet, he', h, Ne.symm h]
      · simp [jsSet, he, jsGet, he', ih]

theorem jsSet_ne_nil (l : List (κ × α)) (k : κ) (v : α) : jsSet l k v ≠ [] := by
  cases l with
  | nil => simp [jsSet]
  | cons e rest =>
    by_cases h : e.1 = k <;> simp [jsSet, h]

theorem jsModify_eq_nil_iff (l : List (κ × α)) (k : κ) (f : α → α) :
    jsModify l k f = [] ↔ l = [] := by
  simp [jsModify]

theorem jsDelete_eq_nil_length (l : List (κ × α)) (k : κ)
    (h : jsDelete l k = []) : l.length ≤ 1 := by
  cases l with
  | nil => simp
  | cons e rest =>
    by_cases he : e.1 = k
    · have : rest = [] := by simpa [jsDelete, List.eraseP_cons, he] using h
      simp [this]
    · exact absurd h (by simp [jsDelete, List.eraseP_cons, he])

end JsMapLemmas

/-! ## Claims about the `useSocket` state machine -/

/-- Claim C4: a message sent while disconnected is never emitted at send
time but is appended to the offline queue; on the transition to
connected with a non-empty queue, exactly one system notice reporting
the queued count is appended, then every queued entry is emitted in
original enqueue order exactly once, and the queue is empty
afterwards.  (The send is assumed accepted: non-blank, not throttled,
no send in flight.) -/
theorem offline_queue_flush (s : SocketState) (message : String) (now : Nat) (tid : String) :
    ((jsTrim message).isEmpty = false →
      ¬ (s.lastSentMessage = some (jsToLower (jsTrim message)) ∧
          now - s.lastSentTime < DUPLICATE_SEND_THROTTLE_MS) →
      s.isSending = false → s.isConnected = false →
      (sendMessage message now tid s).emitted = s.emitted ∧
      (sendMessage message now tid s).offlineQueue = s.offlineQueue ++
        [{ message := message, mtype := "text", queued_at := now, message_id := tid }]) ∧
    (s.offlineQueue ≠ [] →
      onConnect s =
        { s with
            isConnected := true, error := none,
            messages := s.messages ++ [reconnectedNotice s.offlineQueue.length],
            emitted := s.emitted ++ s.offlineQueue.map (fun q => Emit.message q.message q.mtype),
            offlineQueue := [] }) := by
  constructor
  · intro h1 h2 h3 h4
    simp [sendMessage, h1, h2, h3, h4]
  · intro h
    simp [onConnect, List.isEmpty_iff, h]

/-- Witness for C4 at a concrete disconnected send and a concrete
reconnect with one queued message. -/
theorem offline_queue_flush_witness :
    ((sendMessage "hello" 100 "t1" initState).emitted = [] ∧
      (sendMessage "hello" 100 "t1" initState).offlineQueue =
        [{ message := "hello", mtype := "text", queued_at := 100, message_id := "t1" }]) ∧
    onConnect wQueueState =
      { wQueueState with
          isConnected := true, error := none,
          messages := [reconnectedNotice 1], emitted := [Emit.message "hello" "text"],
          offlineQueue := [] } := by
  refine ⟨(offline_queue_flush initState "hello" 100 "t1").1 (by decide) (by decide) rfl rfl, ?_⟩
  have h := (offline_queue_flush wQueueState "x" 0 "t").2 (by decide)
  simpa using h

/-- Claim C5 (amended): a send whose normalized content equals the last
one sent, within the cooldown, is rejected with the "too fast" error
and changes nothing else; after the cooldown the same call is accepted
(appends the user message) provided no send is still in flight. -/
theorem duplicate_send_guard (s : SocketState) (message : String) (now : Nat) (tid : String)
    (hne : (jsTrim message).isEmpty = false) :
    (s.lastSentMessage = some (jsToLower (jsTrim message)) →
      now - s.lastSentTime < DUPLICATE_SEND_THROTTLE_MS →
      sendMessage message now tid s = { s with error := some ERROR_SEND_TOO_FAST }) ∧
    (¬ now - s.lastSentTime < DUPLICATE_SEND_THROTTLE_MS → s.isSending = false →
      (sendMessage message now tid s).messages =
        s.messages ++ userMessageOf message tid ::
          (if s.isConnected = false then [offlineNotice] else [])) := by
  constructor
  · intro hsame hfast
    simp [sendMessage, hne, hsame, hfast]
  · intro hslow hsending
    by_cases hc : s.isConnected = false
    · simp [sendMessage, hne, hslow, hsending, hc]
    · simp [sendMessage, hne, hslow, hsending, hc]

/-- Counterexample to C5 as stated: normalized content equals the last
sent and the cooldown has fully elapsed, yet the call is not accepted —
a send still in flight leaves the state (and the log) unchanged. -/
theorem duplicate_send_guard_cex :
    wInflightState.lastSentMessage = some (jsToLower (jsTrim "hi")) ∧
    DUPLICATE_SEND_THROTTLE_MS ≤ 2000 - wInflightState.lastSentTime ∧
    sendMessage "hi" 2000 "t1" wInflightState = wInflightState := by decide

/-- Witness for C5 (amended) at a throttled and an accepted concrete
call. -/
theorem duplicate_send_guard_witness :
    sendMessage "hi" 100 "t1" wThrottleState =
      { wThrottleState with error := some ERROR_SEND_TOO_FAST } ∧
    (sendMessage "hi" 2500 "t2" wThrottleState).messages =
      [userMessageOf "hi" "t2", offlineNotice] := by
  refine ⟨(duplicate_send_guard wThrottleState "hi" 100 "t1" (by decide)).1
    (by decide) (by decide), ?_⟩
  have h := (duplicate_send_guard wThrottleState "hi" 2500 "t2" (by decide)).2
    (by decide) (by decide)
  simpa using h

/-- Claim C6 (amended): a send rejected because a previous send is in
flight, and a cancellation requested while not connected, return with
the state literally unchanged — no error is surfaced (the code only
logs to the console). -/
theorem silent_rejections (s : SocketState) (message : String) (now : Nat) (tid mid : String)
    (hne : (jsTrim message).isEmpty = false)
    (hnf : ¬ (s.lastSentMessage = some (jsToLower (jsTrim message)) ∧
        now - s.lastSentTime < DUPLICATE_SEND_THROTTLE_MS))
    (hsending : s.isSending = true) (hdisc : s.isConnected = false) :
    sendMessage message now tid s = s ∧ cancelMessage mid s = s ∧ cancelAllMessages s = s := by
  refine ⟨?_, ?_, ?_⟩
  · simp [sendMessage, hne, hnf, hsending]
  · simp [cancelMessage, hdisc]
  · simp [cancelAllMessages, hdisc]

/-- Counterexample to C6 as stated: each of the three rejected
operations leaves the surfaced error `none` instead of setting it. -/
theorem silent_rejections_cex :
    wSendingState.error = none ∧
    (sendMessage "hello" 5 "t1" wSendingState).error = none ∧
    initState.isConnected = false ∧
    (cancelMessage "m1" initState).error = none ∧
    (cancelAllMessages initState).error = none := by decide

/-- Witness for C6 (amended) at a concrete in-flight, disconnected
state. -/
theorem silent_rejections_witness :
    sendMessage "hello" 5 "t1" wSendingState = wSendingState ∧
    cancelMessage "m1" wSendingState = wSendingState ∧
    cancelAllMessages wSendingState = wSendingState :=
  silent_rejections wSendingState "hello" 5 "t1" "m1" (by decide) (by decide) rfl rfl

/-- Claim C7 (amended): an accepted send creates a pending entry keyed
by the new message id exactly when it is dispatched while connected; a
send accepted while disconnected is queued offline and creates no
pending entry. -/
theorem pending_entry_creation (s : SocketState) (message : String) (now : Nat) (tid : String)
    (hne : (jsTrim message).isEmpty = false)
    (hnf : ¬ (s.lastSentMessage = some (jsToLower (jsTrim message)) ∧
        now - s.lastSentTime < DUPLICATE_SEND_THROTTLE_MS))
    (hsending : s.isSending = false) :
    (s.isConnected = true →
      jsGet (sendMessage message now tid s).pending tid =
        some { message := message, status := "sending", sent_at := now, is_typing := false }) ∧
    (s.isConnected = false → (sendMessage message now tid s).pending = s.pending) := by
  constructor
  · intro hc
    simp [sendMessage, hne, hnf, hsending, hc, jsGet_jsSet_self]
  · intro hc
    simp [sendMessage, hne, hnf, hsending, hc]

/-- Counterexample to C7 as stated: a send accepted while disconnected
is queued (and logged) but leaves no pending entry under its id. -/
theorem pending_entry_creation_cex :
    (sendMessage "hello" 100 "t1" initState).offlineQueue =
      [{ message := "hello", mtype := "text", queued_at := 100, message_id := "t1" }] ∧
    (sendMessage "hello" 100 "t1" initState).messages =
      [userMessageOf "hello" "t1", offlineNotice] ∧
    jsGet (sendMessage "hello" 100 "t1" initState).pending "t1" = none := by decide

/-- Witness for C7 (amended) at a concrete connected and disconnected
send. -/
theorem pending_entry_creation_witness :
    jsGet (sendMessage "hello" 100 "t1"
        { initState with isConnected := true }).pending "t1" =
      some { message := "hello", status := "sending", sent_at := 100, is_typing := false } ∧
    (sendMessage "hello" 100 "t1" initState).pending = [] := by
  constructor
  · exact (pending_entry_creation { initState with isConnected := true } "hello" 100 "t1"
      (by decide) (by decide) rfl).1 rfl
  · exact (pending_entry_creation initState "hello" 100 "t1"
      (by decide) (by decide) rfl).2 rfl

/-- Claim C8 (amended): the invariant "empty pending set implies the
typing indicator is off" is preserved by every modelled event except a
typing signal with `is_typing = true` arriving while nothing is
pending; in particular, resolving the last pending entry by reply,
error or cancellation clears the indicator. -/
theorem typing_indicator_invariant (s : SocketState) (e : Event)
    (hInv : s.pending = [] → s.isTyping = false)
    (hg : isTypingTrue e = true → s.pending ≠ []) :
    (stepEvent e s).pending = [] → (stepEvent e s).isTyping = false := by
  cases e with
  | send message now tid =>
    intro hp
    by_cases h1 : (jsTrim message).isEmpty
    · simp only [stepEvent, sendMessage, h1, if_true] at hp ⊢
      exact hInv hp
    · simp only [stepEvent, sendMessage, h1] at hp ⊢
      by_cases h2 : s.lastSentMessage = some (jsToLower (jsTrim message)) ∧
          now - s.lastSentTime < DUPLICATE_SEND_THROTTLE_MS
      · simp only [if_pos h2] at hp ⊢
        exact hInv hp
      · simp only [if_neg h2] at hp ⊢
        by_cases h3 : s.isSending
        · simp only [h3, if_true] at hp ⊢
          exact hInv hp
        · simp only [h3, if_false] at hp ⊢
          by_cases h4 : s.isConnected = false
          · simp only [if_pos h4] at hp ⊢
            exact hInv hp
          · simp only [if_neg h4] at hp ⊢
            exact absurd hp (jsSet_ne_nil _ _ _)
  | response data =>
    intro hp
    simp only [stepEvent, onResponse] at hp ⊢
    simp [hp]
  | socketError data =>
    intro hp
    simp only [stepEvent, onError] at hp ⊢
    simp [hp]
  | typing b id =>
    intro hp
    have hpend : s.pending = [] := by
      cases id with
      | none => simpa [stepEvent, onTyping] using hp
      | some i =>
        simp only [stepEvent, onTyping] at hp
        exact (jsModify_eq_nil_iff s.pending i _).mp hp
    cases b with
    | false => simp [stepEvent, onTyping, hpend]
    | true => exact absurd hpend (hg rfl)
  | messageCancelled mid =>
    intro hp
    simp only [stepEvent, onMessageCancelled] at hp ⊢
    have := jsDelete_eq_nil_length s.pending mid hp
    simp [this]
  | allMessagesCancelled n m =>
    intro _
    simp [stepEvent, onAllMessagesCancelled]

/-- Counterexample to C8 as stated: one reachable typing signal with no
pending entries turns the indicator on while the pending set is
empty. -/
theorem typing_indicator_invariant_cex :
    Reachable (stepEvent (Event.typing true none) initState) ∧
    (stepEvent (Event.typing true none) initState).pending = [] ∧
    (stepEvent (Event.typing true none) initState).isTyping = true :=
  ⟨Reachable.step _ Reachable.init, by decide, by decide⟩

/-- Witness for C8 (amended): resolving the single pending entry by a
reply clears the typing indicator. -/
theorem typing_indicator_invariant_witness :
    (stepEvent (Event.response wResp) wPendState).isTyping = false :=
  typing_indicator_invariant wPendState (Event.response wResp)
    (by decide) (by decide) (by decide)

/-- Claim C9: the bulk-cancellation confirmation with count `K` (the
current number of pending entries) empties the pending set, clears the
typing indicator, and appends exactly one system notice whose metadata
cites `K` (and whose text cites `K` when the server supplies no
text). -/
theorem cancel_all_clears (s : SocketState) (K : Nat) (dmsg : Option String)
    (_hK : K = s.pending.length) :
    onAllMessagesCancelled K dmsg s =
      { s with
          pending := [], isTyping := false,
          messages := s.messages ++ [cancelNotice K dmsg] } ∧
    (cancelNotice K dmsg).metadata =
      some { mtype := some "cancellation", cancelled_count := some K, message := dmsg } ∧
    (dmsg = none →
      (cancelNotice K dmsg).content = "Cancelled " ++ toString K ++ " pending message(s)") := by
  refine ⟨rfl, rfl, ?_⟩
  intro h
  subst h
  rfl

/-- Witness for C9 at a concrete single-entry state. -/
theorem cancel_all_clears_witness :
    onAllMessagesCancelled 1 none wPendState =
      { wPendState with
          pending := [], isTyping := false,
          messages := [cancelNotice 1 none] } ∧
    (cancelNotice 1 none).metadata =
      some { mtype := some "cancellation", cancelled_count := some 1, message := none } ∧
    (none = (none : Option String) →
      (cancelNotice 1 none).content = "Cancelled " ++ toString 1 ++ " pending message(s)") :=
  cancel_all_clears wPendState 1 none (by decide)

/-! ## Lemmas on the log observables -/

theorem countUsers_cons (m : Message) (rest : List Message) :
    countUsers (m :: rest) = (if m.role = Role.user then 1 else 0) + countUsers rest := by
  by_cases h : m.role = Role.user <;> simp [countUsers, List.filter_cons, h] <;> omega

theorem countReplies_cons (m : Message) (rest : List Message) :
    countReplies (m :: rest) =
      (if m.role = Role.assistant ∧ m.agent ≠ some "system" then 1 else 0) + countReplies rest := by
  by_cases h : m.role = Role.assistant ∧ m.agent ≠ some "system" <;>
    simp [countReplies, List.filter_cons, h] <;> omega

theorem usersFrom_sublist (msgs : List Message) (i0 : Nat) :
    (usersFrom msgs i0).Sublist (keysFrom msgs i0) := by
  induction msgs generalizing i0 with
  | nil => simp [usersFrom, keysFrom]
  | cons m rest ih =>
    by_cases h : m.role = Role.user
    · rw [usersFrom, if_pos h, keysFrom]
      exact (ih (i0 + 1)).cons₂ (msgKey m i0)
    · rw [usersFrom, if_neg h, keysFrom]
      exact (ih (i0 + 1)).cons (msgKey m i0)

theorem replyKeysFrom_sublist (msgs : List Message) (i0 : Nat) :
    (replyKeysFrom msgs i0).Sublist (keysFrom msgs i0) := by
  induction msgs generalizing i0 with
  | nil => simp [replyKeysFrom, keysFrom]
  | cons m rest ih =>
    by_cases h : m.role = Role.assistant ∧ m.agent ≠ some "system"
    · rw [replyKeysFrom, if_pos h, keysFrom]
      exact (ih (i0 + 1)).cons₂ (msgKey m i0)
    · rw [replyKeysFrom, if_neg h, keysFrom]
      exact (ih (i0 + 1)).cons (msgKey m i0)

theorem users_reply_disjoint (msgs : List Message) (i0 : Nat)
    (hnd : (keysFrom msgs i0).Nodup) (k : Key) (hk : k ∈ usersFrom msgs i0) :
    k ∉ replyKeysFrom msgs i0 := by
  induction msgs generalizing i0 with
  | nil => simp [replyKeysFrom]
  | cons m rest ih =>
    rw [keysFrom, List.nodup_cons] at hnd
    by_cases hu : m.role = Role.user
    · have hrep : replyKeysFrom (m :: rest) i0 = replyKeysFrom rest (i0 + 1) := by
        simp [replyKeysFrom, hu]
      rw [hrep]
      rw [usersFrom, if_pos hu, List.mem_cons] at hk
      rcases hk with hk | hk
      · subst hk
        intro hmem
        exact hnd.1 ((replyKeysFrom_sublist rest (i0 + 1)).subset hmem)
      · exact ih (i0 + 1) hnd.2 hk
    · have husr : usersFrom (m :: rest) i0 = usersFrom rest (i0 + 1) := by
        simp [usersFrom, hu]
      rw [husr] at hk
      by_cases ha : m.role = Role.assistant ∧ m.agent ≠ some "system"
      · rw [replyKeysFrom, if_pos ha, List.mem_cons]
        rintro (hk' | hk')
        · exact hnd.1 (hk' ▸ (usersFrom_sublist rest (i0 + 1)).subset hk)
        · exact ih (i0 + 1) hnd.2 hk hk'
      · rw [replyKeysFrom, if_neg ha]
        exact ih (i0 + 1) hnd.2 hk

theorem keysFrom_append (xs ys : List Message) (i0 : Nat) :
    keysFrom (xs ++ ys) i0 = keysFrom xs i0 ++ keysFrom ys (i0 + xs.length) := by
  induction xs generalizing i0 with
  | nil => simp [keysFrom]
  | cons m rest ih =>
    have h : i0 + (m :: rest).length = i0 + 1 + rest.length := by
      simp [List.length_cons]
      omega
    rw [h]
    show msgKey m i0 :: keysFrom (rest ++ ys) (i0 + 1) =
      msgKey m i0 :: keysFrom rest (i0 + 1) ++ keysFrom ys (i0 + 1 + rest.length)
    rw [ih (i0 + 1)]
    rfl

theorem usersFrom_append (xs ys : List Message) (i0 : Nat) :
    usersFrom (xs ++ ys) i0 = usersFrom xs i0 ++ usersFrom ys (i0 + xs.length) := by
  induction xs generalizing i0 with
  | nil => simp [usersFrom]
  | cons m rest ih =>
    have h : i0 + (m :: rest).length = i0 + 1 + rest.length := by
      simp [List.length_cons]
      omega
    rw [h]
    by_cases hu : m.role = Role.user
    · show usersFrom (m :: (rest ++ ys)) i0 =
        usersFrom (m :: rest) i0 ++ usersFrom ys (i0 + 1 + rest.length)
      rw [usersFrom, if_pos hu, usersFrom, if_pos hu, ih (i0 + 1)]
      rfl
    · show usersFrom (m :: (rest ++ ys)) i0 =
        usersFrom (m :: rest) i0 ++ usersFrom ys (i0 + 1 + rest.length)
      rw [usersFrom, if_neg hu, usersFrom, if_neg hu, ih (i0 + 1)]

theorem usersFrom_length (msgs : List Message) (i0 : Nat) :
    (usersFrom msgs i0).length = countUsers msgs := by
  induction msgs generalizing i0 with
  | nil => simp [usersFrom, countUsers]
  | cons m rest ih =>
    rw [countUsers_cons]
    by_cases h : m.role = Role.user <;>
      simp [usersFrom, h, ih (i0 + 1)] <;> omega

theorem replyKeysFrom_length (msgs : List Message) (i0 : Nat) :
    (replyKeysFrom msgs i0).length = countReplies msgs := by
  induction msgs generalizing i0 with
  | nil => simp [replyKeysFrom, countReplies]
  | cons m rest ih =>
    rw [countReplies_cons]
    by_cases h : m.role = Role.assistant ∧ m.agent ≠ some "system" <;>
      simp [replyKeysFrom, h, ih (i0 + 1)] <;> omega

theorem usersNumsFrom_getElem? (msgs : List Message) (i0 c0 j : Nat) :
    (usersNumsFrom msgs i0 c0)[j]? =
      ((usersFrom msgs i0)[j]?).map (fun k => (k, c0 + j + 1)) := by
  induction msgs generalizing i0 c0 j with
  | nil => simp [usersNumsFrom, usersFrom]
  | cons m rest ih =>
    by_cases h : m.role = Role.user
    · cases j with
      | zero => simp [usersNumsFrom, usersFrom, h]
      | succ j' =>
        rw [usersNumsFrom, if_pos h, usersFrom, if_pos h,
          List.getElem?_cons_succ, List.getElem?_cons_succ, ih]
        have harith : c0 + 1 + j' + 1 = c0 + (j' + 1) + 1 := by omega
        rw [harith]
    · rw [usersNumsFrom, if_neg h, usersFrom, if_neg h]
      exact ih (i0 + 1) c0 j

/-! ## Lemmas on the three correlation passes -/

theorem firstPass_counter (msgs : List Message) (i0 : Nat) (m : CorrMap) (c : Nat) :
    (firstPass msgs i0 m c).2 = c + countUsers msgs := by
  induction msgs generalizing i0 m c with
  | nil => simp [firstPass, countUsers]
  | cons x rest ih =>
    rw [countUsers_cons]
    by_cases h : x.role = Role.user <;>
      simp [firstPass, h, ih] <;> omega

theorem firstPass_get_not_user (msgs : List Message) (i0 : Nat) (m : CorrMap) (c : Nat)
    (k : Key) (hk : k ∉ usersFrom msgs i0) :
    jsGet (firstPass msgs i0 m c).1 k = jsGet m k := by
  induction msgs generalizing i0 m c with
  | nil => simp [firstPass]
  | cons x rest ih =>
    by_cases h : x.role = Role.user
    · rw [usersFrom, if_pos h, List.mem_cons] at hk
      push_neg at hk
      rw [firstPass, if_pos h]
      rw [ih _ _ _ hk.2, jsGet_jsSet_ne _ _ _ _ hk.1]
    · rw [usersFrom, if_neg h] at hk
      rw [firstPass, if_neg h]
      exact ih _ _ _ hk

theorem firstPass_get_user (msgs : List Message) (i0 : Nat) (m : CorrMap) (c : Nat)
    (hnd : (usersFrom msgs i0).Nodup) (j : Nat) (k : Key)
    (hk : (usersFrom msgs i0)[j]? = some k) :
    jsGet (firstPass msgs i0 m c).1 k = some (userCorrData (c + j + 1)) := by
  induction msgs generalizing i0 m c j with
  | nil => simp [usersFrom] at hk
  | cons x rest ih =>
    by_cases h : x.role = Role.user
    · rw [usersFrom, if_pos h] at hk hnd
      rw [List.nodup_cons] at hnd
      rw [firstPass, if_pos h]
      cases j with
      | zero =>
        rw [List.getElem?_cons_zero, Option.some_inj] at hk
        subst hk
        rw [firstPass_get_not_user _ _ _ _ _ hnd.1, jsGet_jsSet_self]
        rfl
      | succ j' =>
        rw [List.getElem?_cons_succ] at hk
        have harith : c + (j' + 1) + 1 = c + 1 + j' + 1 := by omega
        rw [harith]
        exact ih (i0 + 1) _ (c + 1) hnd.2 j' hk
    · rw [usersFrom, if_neg h] at hk hnd
      rw [firstPass, if_neg h]
      exact ih (i0 + 1) m c hnd j hk

theorem secondPassV2_cons_user (x : Message) (rest : List Message) (i : Nat) (m : CorrMap)
    (q : List (Key × Nat)) (h : x.role = Role.user) :
    secondPassV2 (x :: rest) i m q =
      match jsGet m (msgKey x i) with
      | some d => secondPassV2 rest (i + 1) m (q ++ [(msgKey x i, d.correlationNumber)])
      | none => secondPassV2 rest (i + 1) m q := by
  rw [secondPassV2.eq_def]
  simp [h]

theorem secondPassV2_cons_reply (x : Message) (rest : List Message) (i : Nat) (m : CorrMap)
    (q : List (Key × Nat)) (hu : ¬ x.role = Role.user)
    (ha : x.role = Role.assistant ∧ x.agent ≠ some "system") :
    secondPassV2 (x :: rest) i m q =
      match q with
      | [] => secondPassV2 rest (i + 1) m []
      | matchedQuestion :: qs =>
        secondPassV2 rest (i + 1)
          (jsSet m (msgKey x i)
            { correlationNumber := matchedQuestion.2,
              color := getCorrelationColor matchedQuestion.2,
              isPending := false, isUserMessage := false,
              replyToMessageId := some matchedQuestion.1 })
          qs := by
  rw [secondPassV2.eq_def]
  simp [hu, ha]

theorem secondPassV2_cons_skip (x : Message) (rest : List Message) (i : Nat) (m : CorrMap)
    (q : List (Key × Nat)) (hu : ¬ x.role = Role.user)
    (ha : ¬ (x.role = Role.assistant ∧ x.agent ≠ some "system")) :
    secondPassV2 (x :: rest) i m q = secondPassV2 rest (i + 1) m q := by
  rw [secondPassV2.eq_def]
  simp [hu, ha]

theorem secondPassV2_get_not_reply (msgs : List Message) (i0 : Nat) (m : CorrMap)
    (q : List (Key × Nat)) (k : Key) (hk : k ∉ replyKeysFrom msgs i0) :
    jsGet (secondPassV2 msgs i0 m q).1 k = jsGet m k := by
  induction msgs generalizing i0 m q with
  | nil => simp [secondPassV2]
  | cons x rest ih =>
    by_cases hu : x.role = Role.user
    · rw [replyKeysFrom, if_neg (by simp [hu])] at hk
      rw [secondPassV2_cons_user x rest i0 m q hu]
      cases hget : jsGet m (msgKey x i0) with
      | none => exact ih (i0 + 1) m q hk
      | some d => exact ih (i0 + 1) m _ hk
    · by_cases ha : x.role = Role.assistant ∧ x.agent ≠ some "system"
      · rw [replyKeysFrom, if_pos ha, List.mem_cons] at hk
        push_neg at hk
        rw [secondPassV2_cons_reply x rest i0 m q hu ha]
        cases q with
        | nil => exact ih (i0 + 1) m [] hk.2
        | cons e qs =>
          rw [ih (i0 + 1) _ qs hk.2, jsGet_jsSet_ne _ _ _ _ hk.1]
      · rw [replyKeysFrom, if_neg ha] at hk
        rw [secondPassV2_cons_skip x rest i0 m q hu ha]
        exact ih (i0 + 1) m q hk

theorem thirdPass_preserve (pend : List (String × PendingMessage)) (m : CorrMap) (c : Nat)
    (k : Key) (v : CorrelationData) (h : jsGet m k = some v) :
    jsGet (thirdPass pend m c) k = some v := by
  induction pend generalizing m c with
  | nil => simpa [thirdPass] using h
  | cons e rest ih =>
    obtain ⟨id, pd⟩ := e
    by_cases hin : (jsGet m (Key.str id)).isSome
    · rw [thirdPass, if_pos hin]
      exact ih m c h
    · rw [thirdPass, if_neg hin]
      have hne : k ≠ Key.str id := by
        intro he
        rw [← he, h] at hin
        exact hin rfl
      exact ih _ _ (by rw [jsGet_jsSet_ne _ _ _ _ hne]; exact h)

/-- The final value of any user key in `useMessageCorrelationV2`: the
`j`-th user message (0-based) keeps the entry `userCorrData (j + 1)`
from the numbering pass, provided the log keys are distinct. -/
theorem corrV2_user_entry (msgs : List Message) (p : List (String × PendingMessage))
    (hnd : (keysOf msgs).Nodup) (j : Nat) (k : Key)
    (hk : (usersOf msgs)[j]? = some k) :
    jsGet (useMessageCorrelationV2 msgs p) k = some (userCorrData (j + 1)) := by
  have husers : (usersOf msgs).Nodup := hnd.sublist (usersFrom_sublist msgs 0)
  have h1 : jsGet (firstPass msgs 0 [] 0).1 k = some (userCorrData (j + 1)) := by
    have := firstPass_get_user msgs 0 [] 0 husers j k hk
    simpa using this
  have hmem : k ∈ usersOf msgs := List.getElem?_mem hk
  have hnotrep : k ∉ replyKeysOf msgs := users_reply_disjoint msgs 0 hnd k hmem
  have h2 := secondPassV2_get_not_reply msgs 0 (firstPass msgs 0 [] 0).1 [] k hnotrep
  rw [h1] at h2
  exact thirdPass_preserve p _ _ k _ h2

/-- Claim C3: `useMessageCorrelationV2` numbers the user messages
1, 2, ... in log order (the `j`-th user message, 0-based, receives
`j + 1`), and the numbering is stable under append-only growth: any
user message of the prefix `L` keeps the same number in the extended
log `L ++ E`.  Message keys are assumed pairwise distinct (duplicate
`message_id`s would overwrite entries in the shared map). -/
theorem user_numbering_stable (L E : List Message) (p : List (String × PendingMessage))
    (hnd : (keysOf (L ++ E)).Nodup) (j : Nat) (k : Key)
    (hk : (usersOf L)[j]? = some k) :
    jsGet (useMessageCorrelationV2 L p) k = some (userCorrData (j + 1)) ∧
    jsGet (useMessageCorrelationV2 (L ++ E) p) k = some (userCorrData (j + 1)) := by
  have hndL : (keysOf L).Nodup := by
    rw [keysOf, keysFrom_append] at hnd
    exact hnd.of_append_left
  refine ⟨corrV2_user_entry L p hndL j k hk, ?_⟩
  have hj : j < (usersOf L).length := (List.getElem?_eq_some.mp hk).1
  have hk' : (usersOf (L ++ E))[j]? = some k := by
    have hj' : j < (usersFrom L 0).length := hj
    rw [usersOf, usersFrom_append, List.getElem?_append_left hj']
    exact hk
  exact corrV2_user_entry (L ++ E) p hnd j k hk'

/-- Witness for C3 at a one-user log extended by a second user. -/
theorem user_numbering_stable_witness :
    jsGet (useMessageCorrelationV2 [wU1] []) (Key.str "u1") = some (userCorrData 1) ∧
    jsGet (useMessageCorrelationV2 ([wU1] ++ [wU2]) []) (Key.str "u1") =
      some (userCorrData 1) :=
  user_numbering_stable [wU1] [wU2] [] (by decide) 0 (Key.str "u1") (by decide)

/-! ## The FIFO matching of variant 2 -/

theorem secondPassV2_cons_user_some (x : Message) (rest : List Message) (i : Nat)
    (m : CorrMap) (q : List (Key × Nat)) (d : CorrelationData) (hu : x.role = Role.user)
    (hget : jsGet m (msgKey x i) = some d) :
    secondPassV2 (x :: rest) i m q =
      secondPassV2 rest (i + 1) m (q ++ [(msgKey x i, d.correlationNumber)]) := by
  rw [secondPassV2_cons_user x rest i m q hu, hget]

theorem secondPassV2_cons_reply_nil (x : Message) (rest : List Message) (i : Nat)
    (m : CorrMap) (hu : ¬ x.role = Role.user)
    (ha : x.role = Role.assistant ∧ x.agent ≠ some "system") :
    secondPassV2 (x :: rest) i m [] = secondPassV2 rest (i + 1) m [] := by
  rw [secondPassV2_cons_reply x rest i m [] hu ha]

theorem secondPassV2_cons_reply_cons (x : Message) (rest : List Message) (i : Nat)
    (m : CorrMap) (e0 : Key × Nat) (q' : List (Key × Nat)) (hu : ¬ x.role = Role.user)
    (ha : x.role = Role.assistant ∧ x.agent ≠ some "system") :
    secondPassV2 (x :: rest) i m (e0 :: q') =
      secondPassV2 rest (i + 1) (jsSet m (msgKey x i) (replyCorrData e0.2 e0.1)) q' := by
  rw [secondPassV2_cons_reply x rest i m (e0 :: q') hu ha]
  rfl

/-- The heart of the FIFO matching: running the second pass of
variant 2 from queue `q`, the `j`-th reply key receives the `j`-th
entry of `q` followed by the user keys of the remaining log, provided
keys are distinct, the map holds the numbering-pass entries for the
remaining users, and no prefix contains more replies than
`q.length` plus its users (so no reply ever finds an empty queue). -/
theorem secondPassV2_bind (msgs : List Message) (i0 c0 : Nat) (m : CorrMap)
    (q : List (Key × Nat))
    (hnd : (keysFrom msgs i0).Nodup)
    (hu : ∀ j k, (usersFrom msgs i0)[j]? = some k →
      jsGet m k = some (userCorrData (c0 + j + 1)))
    (hpre : ∀ n, countReplies (msgs.take n) ≤ q.length + countUsers (msgs.take n))
    (j : Nat) (a : Key) (ha : (replyKeysFrom msgs i0)[j]? = some a)
    (e : Key × Nat) (he : (q ++ usersNumsFrom msgs i0 c0)[j]? = some e) :
    jsGet (secondPassV2 msgs i0 m q).1 a = some (replyCorrData e.2 e.1) := by
  induction msgs generalizing i0 c0 m q j with
  | nil => simp [replyKeysFrom] at ha
  | cons x rest ih =>
    rw [keysFrom, List.nodup_cons] at hnd
    by_cases hur : x.role = Role.user
    · -- a user message: it pushes its key and number onto the queue
      have hk0 : (usersFrom (x :: rest) i0)[0]? = some (msgKey x i0) := by
        simp [usersFrom, hur]
      have hlook := hu 0 (msgKey x i0) hk0
      rw [secondPassV2_cons_user_some x rest i0 m q _ hur hlook]
      have hnum : (userCorrData (c0 + 0 + 1)).correlationNumber = c0 + 1 := rfl
      rw [hnum]
      have hrk : replyKeysFrom (x :: rest) i0 = replyKeysFrom rest (i0 + 1) := by
        simp [replyKeysFrom, hur]
      rw [hrk] at ha
      have husr : usersFrom (x :: rest) i0 =
          msgKey x i0 :: usersFrom rest (i0 + 1) := by
        simp [usersFrom, hur]
      have hun : usersNumsFrom (x :: rest) i0 c0 =
          (msgKey x i0, c0 + 1) :: usersNumsFrom rest (i0 + 1) (c0 + 1) := by
        simp [usersNumsFrom, hur]
      refine ih (i0 + 1) (c0 + 1) m (q ++ [(msgKey x i0, c0 + 1)]) hnd.2 ?_ ?_ j ha ?_
      · intro j' k' hk'
        have := hu (j' + 1) k' (by rw [husr, List.getElem?_cons_succ]; exact hk')
        have harith : c0 + (j' + 1) + 1 = c0 + 1 + j' + 1 := by omega
        rwa [harith] at this
      · intro n
        have hx : ¬ (x.role = Role.assistant ∧ x.agent ≠ some "system") := by
          simp [hur]
        have := hpre (n + 1)
        rw [List.take_succ_cons, countReplies_cons, countUsers_cons, if_neg hx,
          if_pos hur] at this
        simp only [List.length_append, List.length_cons, List.length_nil]
        omega
      · rw [hun] at he
        rwa [List.append_cons] at he
    · by_cases har : x.role = Role.assistant ∧ x.agent ≠ some "system"
      · -- a reply: it shifts the head of the queue and binds to it
        have hq1 : 1 ≤ q.length := by
          have := hpre 1
          rw [List.take_succ_cons, List.take_zero, countReplies_cons, countUsers_cons,
            if_pos har, if_neg hur] at this
          simpa [countReplies, countUsers] using this
        cases q with
        | nil => simp at hq1
        | cons e0 q' =>
          rw [secondPassV2_cons_reply_cons x rest i0 m e0 q' hur har]
          have hrk : replyKeysFrom (x :: rest) i0 =
              msgKey x i0 :: replyKeysFrom rest (i0 + 1) := by
            simp [replyKeysFrom, har]
          have husr : usersFrom (x :: rest) i0 = usersFrom rest (i0 + 1) := by
            simp [usersFrom, hur]
          have hun : usersNumsFrom (x :: rest) i0 c0 =
              usersNumsFrom rest (i0 + 1) c0 := by
            simp [usersNumsFrom, hur]
          rw [hrk] at ha
          rw [hun] at he
          have hnotin : msgKey x i0 ∉ replyKeysFrom rest (i0 + 1) := fun hmem =>
            hnd.1 ((replyKeysFrom_sublist rest (i0 + 1)).subset hmem)
          cases j with
          | zero =>
            rw [List.getElem?_cons_zero, Option.some_inj] at ha
            rw [List.cons_append, List.getElem?_cons_zero, Option.some_inj] at he
            subst ha
            subst he
            rw [secondPassV2_get_not_reply rest (i0 + 1) _ q' _ hnotin,
              jsGet_jsSet_self]
          | succ j' =>
            rw [List.getElem?_cons_succ] at ha
            rw [List.cons_append, List.getElem?_cons_succ] at he
            refine ih (i0 + 1) c0 _ q' hnd.2 ?_ ?_ j' ha he
            · intro j'' k'' hk''
              have hne : k'' ≠ msgKey x i0 := by
                intro hcontra
                subst hcontra
                exact hnd.1 ((usersFrom_sublist rest (i0 + 1)).subset
                  (List.getElem?_mem hk''))
              rw [jsGet_jsSet_ne _ _ _ _ hne]
              exact hu j'' k'' (by rwa [husr])
            · intro n
              have := hpre (n + 1)
              rw [List.take_succ_cons, countReplies_cons, countUsers_cons,
                if_pos har, if_neg hur] at this
              simp only [List.length_cons] at this ⊢
              omega
      · -- a system-tagged assistant message: consumes nothing
        rw [secondPassV2_cons_skip x rest i0 m q hur har]
        have hrk : replyKeysFrom (x :: rest) i0 = replyKeysFrom rest (i0 + 1) := by
          simp [replyKeysFrom, har]
        have husr : usersFrom (x :: rest) i0 = usersFrom rest (i0 + 1) := by
          simp [usersFrom, hur]
        have hun : usersNumsFrom (x :: rest) i0 c0 = usersNumsFrom rest (i0 + 1) c0 := by
          simp [usersNumsFrom, hur]
        rw [hrk] at ha
        rw [hun] at he
        refine ih (i0 + 1) c0 m q hnd.2 ?_ ?_ j ha he
        · intro j' k' hk'
          exact hu j' k' (by rwa [husr])
        · intro n
          have := hpre (n + 1)
          rw [List.take_succ_cons, countReplies_cons, countUsers_cons,
            if_neg har, if_neg hur] at this
          omega

/-- Claim C1 (amended): provided no prefix of the log contains more
non-system assistant messages than user messages (no reply precedes the
question it answers), the FIFO matching binds the `j`-th such assistant
message (0-based) to the `j`-th user message — the oldest not yet
bound — with correlation number `j + 1`; the user keys are distinct, so
no user message is double-bound, and the reply count never exceeds the
user count, so no such assistant message is left unbound.  Without the
prefix condition an assistant arriving before any user stays unbound
even when the totals balance. -/
theorem fifo_matching (log : List Message) (p : List (String × PendingMessage))
    (hnd : (keysOf log).Nodup)
    (hpre : ∀ n, n ≤ log.length → countReplies (log.take n) ≤ countUsers (log.take n))
    (j : Nat) (a u : Key)
    (ha : (replyKeysOf log)[j]? = some a) (hu : (usersOf log)[j]? = some u) :
    (usersOf log).Nodup ∧ (replyKeysOf log).length ≤ (usersOf log).length ∧
    jsGet (useMessageCorrelationV2 log p) a = some (replyCorrData (j + 1) u) := by
  have hpre' : ∀ n, countReplies (log.take n) ≤ countUsers (log.take n) := by
    intro n
    by_cases h : n ≤ log.length
    · exact hpre n h
    · have hlen : log.length ≤ n := le_of_not_le h
      rw [List.take_of_length_le hlen]
      have := hpre log.length le_rfl
      rwa [List.take_length] at this
  have husers : (usersOf log).Nodup := hnd.sublist (usersFrom_sublist log 0)
  refine ⟨husers, ?_, ?_⟩
  · rw [usersOf, usersFrom_length, replyKeysOf, replyKeysFrom_length]
    have := hpre' log.length
    rwa [List.take_length] at this
  · have hfp : ∀ j k, (usersFrom log 0)[j]? = some k →
        jsGet (firstPass log 0 [] 0).1 k = some (userCorrData (0 + j + 1)) := by
      intro j k hk
      exact firstPass_get_user log 0 [] 0 husers j k hk
    have hu' : (usersFrom log 0)[j]? = some u := hu
    have he : (([] : List (Key × Nat)) ++ usersNumsFrom log 0 0)[j]? =
        some (u, 0 + j + 1) := by
      rw [List.nil_append, usersNumsFrom_getElem?, hu']
      rfl
    have hbind := secondPassV2_bind log 0 0 (firstPass log 0 [] 0).1 [] hnd hfp
      (by intro n; simpa using hpre' n) j a ha (u, 0 + j + 1) he
    have := thirdPass_preserve p _ (firstPass log 0 [] 0).2 a _ hbind
    simpa [useMessageCorrelationV2] using this

/-- Counterexample to C1 as stated: a log with one non-system assistant
message and one user message (so the totals balance), where the
assistant precedes the user and stays unbound. -/
theorem fifo_matching_cex :
    countReplies [wA1, wU1] = 1 ∧ countUsers [wA1, wU1] = 1 ∧
    jsGet (useMessageCorrelationV2 [wA1, wU1] []) (Key.str "a1") = none := by decide

/-- Witness for C1 (amended) at the log `user, reply`. -/
theorem fifo_matching_witness :
    (usersOf [wU1, wA1]).Nodup ∧
    (replyKeysOf [wU1, wA1]).length ≤ (usersOf [wU1, wA1]).length ∧
    jsGet (useMessageCorrelationV2 [wU1, wA1] []) (Key.str "a1") =
      some (replyCorrData 1 (Key.str "u1")) :=
  fifo_matching [wU1, wA1] [] (by decide) (by decide) 0 (Key.str "a1") (Key.str "u1")
    (by decide) (by decide)

/-! ## Position-independence of keys and transparency of system notices -/

theorem msgKey_indep (m : Message) (h : hasRealId m = true) (i i' : Nat) :
    msgKey m i = msgKey m i' := by
  cases hm : m.message_id with
  | none => simp [hasRealId, hm] at h
  | some s =>
    simp only [hasRealId, hm, Bool.not_eq_true'] at h
    simp [msgKey, hm, h]

theorem msgKey_ne_idx (m : Message) (h : hasRealId m = true) (i n : Nat) :
    msgKey m i ≠ Key.idx n := by
  cases hm : m.message_id with
  | none => simp [hasRealId, hm] at h
  | some s =>
    simp only [hasRealId, hm, Bool.not_eq_true'] at h
    simp [msgKey, hm, h]

theorem jsTruthyKey_msgKey (m : Message) (h : hasRealId m = true) (i : Nat) :
    jsTruthyKey (some (msgKey m i)) = true := by
  cases hm : m.message_id with
  | none => simp [hasRealId, hm] at h
  | some s =>
    simp only [hasRealId, hm, Bool.not_eq_true'] at h
    simp [msgKey, hm, h, jsTruthyKey]

theorem firstPass_indep (msgs : List Message) (hids : ∀ x ∈ msgs, hasRealId x = true)
    (i0 i0' : Nat) (m : CorrMap) (c : Nat) :
    firstPass msgs i0 m c = firstPass msgs i0' m c := by
  induction msgs generalizing i0 i0' m c with
  | nil => rfl
  | cons x rest ih =>
    have hx : hasRealId x = true := hids x (List.mem_cons_self x rest)
    have hrest : ∀ y ∈ rest, hasRealId y = true :=
      fun y hy => hids y (List.mem_cons_of_mem x hy)
    by_cases hr : x.role = Role.user
    · simp only [firstPass, if_pos hr, msgKey_indep x hx i0 i0']
      exact ih hrest (i0 + 1) (i0' + 1) _ _
    · simp only [firstPass, if_neg hr]
      exact ih hrest (i0 + 1) (i0' + 1) m c

theorem secondPassV2_indep (msgs : List Message) (hids : ∀ x ∈ msgs, hasRealId x = true)
    (i0 i0' : Nat) (m : CorrMap) (q : List (Key × Nat)) :
    secondPassV2 msgs i0 m q = secondPassV2 msgs i0' m q := by
  induction msgs generalizing i0 i0' m q with
  | nil => rfl
  | cons x rest ih =>
    have hx : hasRealId x = true := hids x (List.mem_cons_self x rest)
    have hrest : ∀ y ∈ rest, hasRealId y = true :=
      fun y hy => hids y (List.mem_cons_of_mem x hy)
    have hkey := msgKey_indep x hx i0 i0'
    by_cases hr : x.role = Role.user
    · rw [secondPassV2_cons_user x rest i0 m q hr,
        secondPassV2_cons_user x rest i0' m q hr, hkey]
      cases jsGet m (msgKey x i0') with
      | none => exact ih hrest _ _ _ _
      | some d => exact ih hrest _ _ _ _
    · by_cases ha : x.role = Role.assistant ∧ x.agent ≠ some "system"
      · rw [secondPassV2_cons_reply x rest i0 m q hr ha,
          secondPassV2_cons_reply x rest i0' m q hr ha, hkey]
        cases q with
        | nil => exact ih hrest _ _ _ _
        | cons e0 q' => exact ih hrest _ _ _ _
      · rw [secondPassV2_cons_skip x rest i0 m q hr ha,
          secondPassV2_cons_skip x rest i0' m q hr ha]
        exact ih hrest _ _ _ _

theorem firstPass_append (xs ys : List Message) (i0 : Nat) (m : CorrMap) (c : Nat) :
    firstPass (xs ++ ys) i0 m c =
      firstPass ys (i0 + xs.length) (firstPass xs i0 m c).1 (firstPass xs i0 m c).2 := by
  induction xs generalizing i0 m c with
  | nil => simp [firstPass]
  | cons x rest ih =>
    have harith : i0 + (x :: rest).length = i0 + 1 + rest.length := by
      simp only [List.length_cons]
      omega
    rw [harith]
    by_cases hr : x.role = Role.user
    · simp only [List.cons_append, firstPass, if_pos hr]
      exact ih (i0 + 1) _ _
    · simp only [List.cons_append, firstPass, if_neg hr]
      exact ih (i0 + 1) m c

theorem secondPassV2_append (xs ys : List Message) (i0 : Nat) (m : CorrMap)
    (q : List (Key × Nat)) :
    secondPassV2 (xs ++ ys) i0 m q =
      secondPassV2 ys (i0 + xs.length) (secondPassV2 xs i0 m q).1
        (secondPassV2 xs i0 m q).2 := by
  induction xs generalizing i0 m q with
  | nil => simp [secondPassV2]
  | cons x rest ih =>
    have harith : i0 + (x :: rest).length = i0 + 1 + rest.length := by
      simp only [List.length_cons]
      omega
    rw [harith]
    by_cases hr : x.role = Role.user
    · rw [show (x :: rest) ++ ys = x :: (rest ++ ys) from rfl,
        secondPassV2_cons_user x (rest ++ ys) i0 m q hr,
        secondPassV2_cons_user x rest i0 m q hr]
      cases jsGet m (msgKey x i0) with
      | none => exact ih (i0 + 1) m q
      | some d => exact ih (i0 + 1) m _
    · by_cases ha : x.role = Role.assistant ∧ x.agent ≠ some "system"
      · rw [show (x :: rest) ++ ys = x :: (rest ++ ys) from rfl,
          secondPassV2_cons_reply x (rest ++ ys) i0 m q hr ha,
          secondPassV2_cons_reply x rest i0 m q hr ha]
        cases q with
        | nil => exact ih (i0 + 1) m []
        | cons e0 q' => exact ih (i0 + 1) _ q'
      · rw [show (x :: rest) ++ ys = x :: (rest ++ ys) from rfl,
          secondPassV2_cons_skip x (rest ++ ys) i0 m q hr ha,
          secondPassV2_cons_skip x rest i0 m q hr ha]
        exact ih (i0 + 1) m q

theorem firstPass_noIdx (msgs : List Message) (hids : ∀ x ∈ msgs, hasRealId x = true)
    (i0 : Nat) (m : CorrMap) (c : Nat)
    (hm : ∀ n, jsGet m (Key.idx n) = none) :
    ∀ n, jsGet (firstPass msgs i0 m c).1 (Key.idx n) = none := by
  induction msgs generalizing i0 m c with
  | nil => exact hm
  | cons x rest ih =>
    have hx : hasRealId x = true := hids x (List.mem_cons_self x rest)
    have hrest : ∀ y ∈ rest, hasRealId y = true :=
      fun y hy => hids y (List.mem_cons_of_mem x hy)
    by_cases hr : x.role = Role.user
    · simp only [firstPass, if_pos hr]
      refine ih hrest (i0 + 1) _ _ ?_
      intro n
      rw [jsGet_jsSet_ne _ _ _ _ (Ne.symm (msgKey_ne_idx x hx i0 n))]
      exact hm n
    · simp only [firstPass, if_neg hr]
      exact ih hrest (i0 + 1) m c hm

theorem secondPassV2_noIdx (msgs : List Message) (hids : ∀ x ∈ msgs, hasRealId x = true)
    (i0 : Nat) (m : CorrMap) (q : List (Key × Nat))
    (hm : ∀ n, jsGet m (Key.idx n) = none) :
    ∀ n, jsGet (secondPassV2 msgs i0 m q).1 (Key.idx n) = none := by
  induction msgs generalizing i0 m q with
  | nil => exact hm
  | cons x rest ih =>
    have hx : hasRealId x = true := hids x (List.mem_cons_self x rest)
    have hrest : ∀ y ∈ rest, hasRealId y = true :=
      fun y hy => hids y (List.mem_cons_of_mem x hy)
    by_cases hr : x.role = Role.user
    · rw [secondPassV2_cons_user x rest i0 m q hr]
      cases jsGet m (msgKey x i0) with
      | none => exact ih hrest (i0 + 1) m q hm
      | some d => exact ih hrest (i0 + 1) m _ hm
    · by_cases ha : x.role = Role.assistant ∧ x.agent ≠ some "system"
      · rw [secondPassV2_cons_reply x rest i0 m q hr ha]
        cases q with
        | nil => exact ih hrest (i0 + 1) m [] hm
        | cons e0 q' =>
          refine ih hrest (i0 + 1) _ q' ?_
          intro n
          rw [jsGet_jsSet_ne _ _ _ _ (Ne.symm (msgKey_ne_idx x hx i0 n))]
          exact hm n
      · rw [secondPassV2_cons_skip x rest i0 m q hr ha]
        exact ih hrest (i0 + 1) m q hm

theorem thirdPass_noIdx (pend : List (String × PendingMessage)) (m : CorrMap) (c : Nat)
    (hm : ∀ n, jsGet m (Key.idx n) = none) :
    ∀ n, jsGet (thirdPass pend m c) (Key.idx n) = none := by
  induction pend generalizing m c with
  | nil => exact hm
  | cons e rest ih =>
    obtain ⟨id, pd⟩ := e
    by_cases hin : (jsGet m (Key.str id)).isSome
    · rw [thirdPass, if_pos hin]
      exact ih m c hm
    · rw [thirdPass, if_neg hin]
      refine ih _ _ ?_
      intro n
      rw [jsGet_jsSet_ne _ _ _ _ (by simp : Key.idx n ≠ Key.str id)]
      exact hm n

/-- Claim C2: a system-tagged, id-less assistant notice inserted
anywhere in a log of messages with real ids changes nothing in the
correlation map — in particular the next non-system assistant message
binds exactly as it would without the notice — and the notice itself
receives no entry (no reply-to binding). -/
theorem system_notice_transparent (L1 L2 : List Message)
    (p : List (String × PendingMessage)) (notice : Message)
    (hrole : notice.role = Role.assistant) (hagent : notice.agent = some "system")
    (hid : notice.message_id = none)
    (hids : ∀ m ∈ L1 ++ L2, hasRealId m = true) :
    useMessageCorrelationV2 (L1 ++ notice :: L2) p =
      useMessageCorrelationV2 (L1 ++ L2) p ∧
    jsGet (useMessageCorrelationV2 (L1 ++ notice :: L2) p) (Key.idx L1.length) = none := by
  have hids2 : ∀ m ∈ L2, hasRealId m = true :=
    fun m hm => hids m (List.mem_append_right L1 hm)
  have hnotuser : ¬ notice.role = Role.user := by
    rw [hrole]
    decide
  have hfp : ∀ (m : CorrMap) (c : Nat) (i : Nat),
      firstPass (notice :: L2) i m c = firstPass L2 i m c := by
    intro m c i
    rw [firstPass, if_neg hnotuser]
    exact firstPass_indep L2 hids2 (i + 1) i m c
  have hsp : ∀ (m : CorrMap) (q : List (Key × Nat)) (i : Nat),
      secondPassV2 (notice :: L2) i m q = secondPassV2 L2 i m q := by
    intro m q i
    rw [secondPassV2_cons_skip notice L2 i m q hnotuser (by simp [hagent])]
    exact secondPassV2_indep L2 hids2 (i + 1) i m q
  have hfpeq : firstPass (L1 ++ notice :: L2) 0 [] 0 = firstPass (L1 ++ L2) 0 [] 0 := by
    rw [firstPass_append L1 (notice :: L2) 0 [] 0, firstPass_append L1 L2 0 [] 0, hfp]
  have hspeq : ∀ (m : CorrMap),
      secondPassV2 (L1 ++ notice :: L2) 0 m [] = secondPassV2 (L1 ++ L2) 0 m [] := by
    intro m
    rw [secondPassV2_append L1 (notice :: L2) 0 m [],
      secondPassV2_append L1 L2 0 m [], hsp]
  have hmain : useMessageCorrelationV2 (L1 ++ notice :: L2) p =
      useMessageCorrelationV2 (L1 ++ L2) p := by
    simp only [useMessageCorrelationV2]
    rw [hfpeq, hspeq]
  refine ⟨hmain, ?_⟩
  rw [hmain]
  simp only [useMessageCorrelationV2]
  have h1 := firstPass_noIdx (L1 ++ L2) hids 0 [] 0 (fun _ => rfl)
  have h2 := secondPassV2_noIdx (L1 ++ L2) hids 0 (firstPass (L1 ++ L2) 0 [] 0).1 [] h1
  exact thirdPass_noIdx p _ _ h2 L1.length

/-- Witness for C2: a reconnection-style notice between two user
messages, followed by one real reply. -/
theorem system_notice_transparent_witness :
    useMessageCorrelationV2 ([wU1] ++ wSys :: [wU2, wA1]) [] =
      useMessageCorrelationV2 ([wU1] ++ [wU2, wA1]) [] ∧
    jsGet (useMessageCorrelationV2 ([wU1] ++ wSys :: [wU2, wA1]) []) (Key.idx 1) = none :=
  system_notice_transparent [wU1] [wU2, wA1] [] wSys rfl rfl rfl (by decide)

/-! ## The two source variants of the correlation hook -/

theorem secondPassV1_cons_user (x : Message) (rest : List Message) (i : Nat) (m : CorrMap)
    (lastU : Option Key) (lastN : Nat) (h : x.role = Role.user) :
    secondPassV1 (x :: rest) i m lastU lastN =
      secondPassV1 rest (i + 1) m (some (msgKey x i))
        (match jsGet m (msgKey x i) with
         | some d => d.correlationNumber
         | none => lastN) := by
  rw [secondPassV1.eq_def]
  simp [h]

theorem secondPassV1_cons_user_some (x : Message) (rest : List Message) (i : Nat)
    (m : CorrMap) (lastU : Option Key) (lastN : Nat) (d : CorrelationData)
    (h : x.role = Role.user) (hget : jsGet m (msgKey x i) = some d) :
    secondPassV1 (x :: rest) i m lastU lastN =
      secondPassV1 rest (i + 1) m (some (msgKey x i)) d.correlationNumber := by
  rw [secondPassV1_cons_user x rest i m lastU lastN h, hget]

theorem secondPassV1_cons_link (x : Message) (rest : List Message) (i : Nat) (m : CorrMap)
    (lastU : Option Key) (lastN : Nat) (hu : ¬ x.role = Role.user)
    (ha : x.role = Role.assistant ∧ jsTruthyKey lastU = true) :
    secondPassV1 (x :: rest) i m lastU lastN =
      secondPassV1 rest (i + 1)
        (jsSet m (msgKey x i)
          { correlationNumber := lastN, color := getCorrelationColor lastN,
            isPending := false, isUserMessage := false, replyToMessageId := lastU })
        lastU lastN := by
  rw [secondPassV1.eq_def]
  simp [hu, ha]

/-- On an alternating log the two second passes build the same map:
variant 1 links each reply to the immediately preceding user message,
which is exactly the head of variant 2's one-element queue. -/
theorem secondPass_variants_alt (msgs : List Message) (halt : AltLog msgs) :
    ∀ (i0 c0 : Nat) (m : CorrMap) (lastU : Option Key) (lastN : Nat),
      (∀ x ∈ msgs, hasRealId x = true) →
      (keysFrom msgs i0).Nodup →
      (∀ j k, (usersFrom msgs i0)[j]? = some k →
        jsGet m k = some (userCorrData (c0 + j + 1))) →
      secondPassV1 msgs i0 m lastU lastN = (secondPassV2 msgs i0 m []).1 := by
  induction halt with
  | nil =>
    intro i0 c0 m lastU lastN _ _ _
    rfl
  | user1 u hu =>
    intro i0 c0 m lastU lastN _ _ _
    rw [secondPassV1_cons_user u [] i0 m lastU lastN hu,
      secondPassV2_cons_user u [] i0 m [] hu]
    cases jsGet m (msgKey u i0) <;> rfl
  | cons u a rest hu ha hns hrest ih =>
    intro i0 c0 m lastU lastN hids hnd hmap
    have hidu : hasRealId u = true := hids u (by simp)
    have hida : hasRealId a = true := hids a (by simp)
    have hk0 : (usersFrom (u :: a :: rest) i0)[0]? = some (msgKey u i0) := by
      simp [usersFrom, hu]
    have hlook := hmap 0 (msgKey u i0) hk0
    have hnotu : ¬ a.role = Role.user := by
      rw [ha]
      decide
    rw [secondPassV1_cons_user_some u (a :: rest) i0 m lastU lastN _ hu hlook,
      secondPassV1_cons_link a rest (i0 + 1) m (some (msgKey u i0)) _ hnotu
        ⟨ha, jsTruthyKey_msgKey u hidu i0⟩,
      secondPassV2_cons_user_some u (a :: rest) i0 m [] _ hu hlook,
      List.nil_append,
      secondPassV2_cons_reply_cons a rest (i0 + 1) m
        (msgKey u i0, (userCorrData (c0 + 0 + 1)).correlationNumber) [] hnotu ⟨ha, hns⟩]
    simp only [userCorrData, replyCorrData]
    rw [keysFrom, keysFrom, List.nodup_cons, List.nodup_cons] at hnd
    refine ih (i0 + 2) (c0 + 1) _ (some (msgKey u i0)) (c0 + 0 + 1)
      (fun y hy => hids y (by simp [hy])) hnd.2.2 ?_
    intro j k hk
    have hkmem : k ∈ keysFrom rest (i0 + 2) :=
      (usersFrom_sublist rest (i0 + 2)).subset (List.getElem?_mem hk)
    have hne : k ≠ msgKey a (i0 + 1) := by
      intro hcontra
      exact hnd.2.1 (hcontra ▸ hkmem)
    rw [jsGet_jsSet_ne _ _ _ _ hne]
    have := hmap (j + 1) k (by
      have husr : usersFrom (u :: a :: rest) i0 =
          msgKey u i0 :: usersFrom rest (i0 + 2) := by
        simp [usersFrom, hu, hnotu]
      rw [husr, List.getElem?_cons_succ]
      exact hk)
    have harith : c0 + (j + 1) + 1 = c0 + 1 + j + 1 := by omega
    rwa [harith] at this

/-- Claim C10 (amended): the two source variants of
`useMessageCorrelation` agree exactly on logs that strictly alternate
user and non-system assistant messages with distinct non-empty
message ids (at most one outstanding question at a time); in general
they differ. -/
theorem variants_agree_on_alternating (msgs : List Message)
    (p : List (String × PendingMessage)) (halt : AltLog msgs)
    (hids : ∀ m ∈ msgs, hasRealId m = true) (hnd : (keysOf msgs).Nodup) :
    useMessageCorrelationV1 msgs p = useMessageCorrelationV2 msgs p := by
  have husers : (usersOf msgs).Nodup := hnd.sublist (usersFrom_sublist msgs 0)
  have hmap : ∀ j k, (usersFrom msgs 0)[j]? = some k →
      jsGet (firstPass msgs 0 [] 0).1 k = some (userCorrData (0 + j + 1)) :=
    fun j k hk => firstPass_get_user msgs 0 [] 0 husers j k hk
  simp only [useMessageCorrelationV1, useMessageCorrelationV2]
  rw [secondPass_variants_alt msgs halt 0 0 (firstPass msgs 0 [] 0).1 none 0 hids hnd hmap]

/-- Counterexample to C10 as stated: with two unanswered user messages
followed by one reply, variant 1 binds the reply to the second user
message while variant 2 binds it to the first, so the maps differ. -/
theorem variants_differ_cex :
    useMessageCorrelationV1 [wU1, wU2, wA1] [] ≠
      useMessageCorrelationV2 [wU1, wU2, wA1] [] := by decide

/-- Witness for C10 (amended) on the alternating log `user, reply`. -/
theorem variants_agree_witness :
    useMessageCorrelationV1 [wU1, wA1] [] = useMessageCorrelationV2 [wU1, wA1] [] :=
  variants_agree_on_alternating [wU1, wA1] []
    (AltLog.cons wU1 wA1 [] rfl rfl (by decide) AltLog.nil) (by decide) (by decide)



end ElectroMart
